import Mathlib

/-!
Shallow embedding of the tylerbot habit tracker (src/db.py and src/bot.py).

Dates are modelled by their proleptic Gregorian ordinal (Python's
`date.toordinal()`, a positive natural number): `date.weekday()` is
`(ordinal - 1) % 7` with Monday = 0 (ordinal 1 is 0001-01-01, a Monday),
and `timedelta(days = k)` is addition of `k`.  `date.isoformat()` is
injective on dates and its lexicographic order agrees with the ordinal
order for the four-digit years SQLite ever sees, so `log_date TEXT`
columns holding ISO strings are modelled by the ordinal itself.

The SQLite database state is a record of the three tables created by
`init_db`, together with the AUTOINCREMENT counters for `users.id` and
`habits.id` (SQLite hands out ids 1, 2, 3, ...).  `habit_logs.id` and the
`created_at` columns are never read by any query in the source, so the
log rows keep only the columns the code observes: `habit_id`, `log_date`
and `done`.
-/

namespace Tylerbot

/-- Python `date.weekday()` on an ordinal: Monday = 0 ... Sunday = 6. -/
def weekday (d : Nat) : Nat := (d - 1) % 7

/-- Python `str.strip()`: remove leading and trailing whitespace, modelled
directly on the string's character list. -/
def strip (s : String) : String :=
  ⟨((s.data.dropWhile Char.isWhitespace).reverse.dropWhile Char.isWhitespace).reverse⟩

/-- One row of the `users` table (observable columns). -/
structure UserRow where
  id : Nat
  tg_user_id : Nat
  tg_username : Option String
deriving Repr, DecidableEq

/-- One row of the `habits` table (observable columns).
`is_active INTEGER` only ever holds 0 or 1, modelled as `Bool`. -/
structure HabitRow where
  id : Nat
  user_id : Nat
  title : String
  is_active : Bool
deriving Repr, DecidableEq

/-- One row of the `habit_logs` table (observable columns).
`done INTEGER` is kept as `Nat`: the code writes 1 but reads it back as
an arbitrary integer in `weekly_status`. -/
structure LogRow where
  habit_id : Nat
  log_date : Nat
  done : Nat
deriving Repr, DecidableEq

/-- The whole database state. -/
structure DB where
  users : List UserRow
  habits : List HabitRow
  logs : List LogRow
  nextUserId : Nat
  nextHabitId : Nat
deriving Repr, DecidableEq

/-- The state `init_db` leaves on a fresh file: three empty tables, AUTOINCREMENT at 1. -/
def initDB : DB := ⟨[], [], [], 1, 1⟩

/-- The query `SELECT id FROM users WHERE tg_user_id = ?` (first row, if any). -/
def findUser (db : DB) (tg_user_id : Nat) : Option UserRow :=
  db.users.find? (fun u => u.tg_user_id == tg_user_id)

/-- Function `db.upsert_user`: `INSERT INTO users (tg_user_id, tg_username) VALUES (?, ?)
ON CONFLICT(tg_user_id) DO UPDATE SET tg_username = excluded.tg_username`,
then `SELECT id FROM users WHERE tg_user_id = ?`.  Returns the new state and
the selected internal id. -/
def upsert_user (db : DB) (tg_user_id : Nat) (tg_username : Option String) : DB × Nat :=
  match db.users.find? (fun u => u.tg_user_id == tg_user_id) with
  | some u =>
      ({ db with users := db.users.map (fun v =>
            if v.tg_user_id == tg_user_id then { v with tg_username := tg_username } else v) },
       u.id)
  | none =>
      ({ db with users := db.users ++ [⟨db.nextUserId, tg_user_id, tg_username⟩],
                 nextUserId := db.nextUserId + 1 },
       db.nextUserId)

/-- Function `db.add_habit`: `INSERT INTO habits (user_id, title) VALUES (?, ?)` with
`title.strip()`; `is_active` defaults to 1; returns `cursor.lastrowid`. -/
def add_habit (db : DB) (user_id : Nat) (title : String) : DB × Nat :=
  ({ db with habits := db.habits ++ [⟨db.nextHabitId, user_id, strip title, true⟩],
             nextHabitId := db.nextHabitId + 1 },
   db.nextHabitId)

/-- A `(id, title)` row returned by `list_habits`. -/
structure HabitItem where
  id : Nat
  title : String
deriving Repr, DecidableEq

/-- Function `db.list_habits`: `SELECT id, title FROM habits WHERE user_id = ? AND
is_active = 1 ORDER BY id ASC`. -/
def list_habits (db : DB) (user_id : Nat) : List HabitItem :=
  (List.insertionSort (fun a b => a.id ≤ b.id)
      (db.habits.filter (fun h => h.user_id == user_id && h.is_active))).map
    (fun h => ⟨h.id, h.title⟩)

/-- The shared SQL idiom `INSERT INTO habit_logs (habit_id, log_date, done)
VALUES (?, ?, 1) ON CONFLICT(habit_id, log_date) DO UPDATE SET done = 1`:
update the conflicting row(s) if the key pair is present, insert otherwise. -/
def upsertLogDone (logs : List LogRow) (habit_id : Nat) (log_date : Nat) : List LogRow :=
  if logs.any (fun l => l.habit_id == habit_id && l.log_date == log_date) then
    logs.map (fun l =>
      if l.habit_id == habit_id && l.log_date == log_date then { l with done := 1 } else l)
  else
    logs ++ [⟨habit_id, log_date, 1⟩]

/-- Function `db.mark_done`: the upsert above with no habit lookup at all;
`cursor.rowcount > 0` is true in both the insert and the update branch. -/
def mark_done (db : DB) (habit_id : Nat) (target_date : Nat) : DB × Bool :=
  ({ db with logs := upsertLogDone db.logs habit_id target_date }, true)

/-- Function `db.mark_done_for_user`: `INSERT INTO habit_logs ... SELECT h.id, ?, 1
FROM habits h WHERE h.id = ? AND h.user_id = ? AND h.is_active = 1
ON CONFLICT(habit_id, log_date) DO UPDATE SET done = 1`; returns
`cursor.rowcount > 0`, i.e. whether the scoped SELECT produced a row. -/
def mark_done_for_user (db : DB) (user_id habit_id : Nat) (target_date : Nat) : DB × Bool :=
  if db.habits.any (fun h => h.id == habit_id && h.user_id == user_id && h.is_active) then
    ({ db with logs := upsertLogDone db.logs habit_id target_date }, true)
  else
    (db, false)

/-- Result of the toggle, as consumed by `bot.done_callback` ("marked" vs
anything else). -/
inductive ToggleResult where
  | marked
  | removed
deriving Repr, DecidableEq

/-- Modelled from the spec: `toggle_done_for_user` is imported by src/bot.py
from the db module but its definition is not under src/.  Per spec §4.3
(ToggleDone): verify the habit exists, is active and belongs to the user,
otherwise NotFound (`none`, which `done_callback` reports as "Habit not
found"); if the pair is currently Undone, insert/upsert a row with done = 1
and return Marked; if currently Done (a row with done = 1 is present),
remove the row for the pair (spec §3: "unmark deletes the row") and return
Removed. -/
def toggle_done_for_user (db : DB) (user_id habit_id : Nat) (target_date : Nat) :
    DB × Option ToggleResult :=
  if db.habits.any (fun h => h.id == habit_id && h.user_id == user_id && h.is_active) then
    if db.logs.any (fun l =>
        l.habit_id == habit_id && l.log_date == target_date && l.done == 1) then
      ({ db with logs := db.logs.filter (fun l =>
            !(l.habit_id == habit_id && l.log_date == target_date)) },
       some ToggleResult.removed)
    else
      ({ db with logs := upsertLogDone db.logs habit_id target_date },
       some ToggleResult.marked)
  else
    (db, none)

/-- Modelled from the spec: `deactivate_habit_for_user` is imported by
src/bot.py from the db module but its definition is not under src/.  Per
spec §4.2 (DeactivateHabit): flip `is_active` to false only if the habit
exists, belongs to the user and is currently active; return whether a row
was changed. -/
def deactivate_habit_for_user (db : DB) (user_id habit_id : Nat) : DB × Bool :=
  if db.habits.any (fun h => h.id == habit_id && h.user_id == user_id && h.is_active) then
    ({ db with habits := db.habits.map (fun h =>
          if h.id == habit_id && h.user_id == user_id && h.is_active then
            { h with is_active := false }
          else h) },
     true)
  else
    (db, false)

/-- Function `bot.week_dates`: `monday = today - timedelta(days=today.weekday())`;
`[monday + timedelta(days=i) for i in range(7)]`. -/
def week_dates (today : Nat) : List Nat :=
  let monday := today - weekday today
  (List.range 7).map (fun i => monday + i)

/-- First letter of `d.strftime("%a")` in the C locale:
Mon Tue Wed Thu Fri Sat Sun. -/
def dayLetter (d : Nat) : String :=
  ["M", "T", "W", "T", "F", "S", "S"].getD (weekday d) "M"

/-- Month abbreviations of `d.strftime("%b")` in the C locale (month 1-12). -/
def monthAbbrev (m : Nat) : String :=
  ["Jan", "Feb", "Mar", "Apr", "May", "Jun",
   "Jul", "Aug", "Sep", "Oct", "Nov", "Dec"].getD (m - 1) "Jan"

/-- Proleptic Gregorian ordinal to (year, month, day), the inverse of
`date.toordinal()` (shifted civil-from-days computation; `o + 305` is the
day count since 0000-03-01, nonnegative for every ordinal). -/
def civilFromOrdinal (o : Nat) : Nat × Nat × Nat :=
  let z := o + 305
  let era := z / 146097
  let doe := z % 146097
  let yoe := (doe - doe / 1460 + doe / 36524 - doe / 146096) / 365
  let y := yoe + era * 400
  let doy := doe - (365 * yoe + yoe / 4 - yoe / 100)
  let mp := (5 * doy + 2) / 153
  let d := doy - (153 * mp + 2) / 5 + 1
  let m := if mp < 10 then mp + 3 else mp - 9
  (if m ≤ 2 then y + 1 else y, m, d)

/-- Day of month as in `"%d"`, zero-padded to two digits. -/
def pad2 (n : Nat) : String :=
  if n < 10 then "0" ++ toString n else toString n

/-- Format `d.strftime("%d %b")`. -/
def dayMonthStr (o : Nat) : String :=
  let c := civilFromOrdinal o
  pad2 c.2.2 ++ " " ++ monthAbbrev c.2.1

/-- Python `f"{title[:15]:15}"`: truncate to 15 characters, pad right with
spaces to width 15. -/
def take15pad (title : String) : String :=
  let t := title.take 15
  t ++ String.mk (List.replicate (15 - t.length) ' ')

/-- Lookup `statuses.get(key, 0)` on the status dict (modelled as an association
list keyed by `(habit_id, ordinal)`). -/
def statusGet (statuses : List ((Nat × Nat) × Nat)) (key : Nat × Nat) : Nat :=
  (Option.map (fun kv => kv.2) (statuses.find? (fun kv => kv.1 == key))).getD 0

/-- Function `bot.build_week_table`, line by line: the two header lines, then a loop
appending one row per habit; joined with newlines.  On an empty `days` list
the source would raise `IndexError` at `days[0]`; that case is modelled as
the empty string and never arises (days always comes from `week_dates`). -/
def build_week_table (habits : List HabitItem) (statuses : List ((Nat × Nat) × Nat))
    (days : List Nat) : String :=
  match days with
  | [] => ""
  | d0 :: _ =>
    let day_header := " " ++ String.intercalate " " (days.map (fun d => dayLetter d))
    let lines := ["Week " ++ dayMonthStr d0 ++ " - " ++ dayMonthStr (days.getLastD d0),
                  String.mk (List.replicate 16 ' ') ++ day_header]
    let lines := habits.foldl (fun acc h =>
      acc ++ [take15pad h.title ++ " " ++
        String.join (days.map (fun d =>
          if statusGet statuses (h.id, d) == 1 then "🟩" else "🟥"))]) lines
    String.intercalate "\n" lines

/-- Following the spec's words (§4.4 RenderGrid): a header line with the
week's date span, a sub-header with one single-letter day abbreviation per
column, then one row per habit in listing order — title truncated/padded to
a fixed width followed by one glyph per day in date-range order. -/
def renderGridSpec (habits : List HabitItem) (statuses : List ((Nat × Nat) × Nat))
    (days : List Nat) : String :=
  match days with
  | [] => ""
  | d0 :: _ =>
    String.intercalate "\n"
      (("Week " ++ dayMonthStr d0 ++ " - " ++ dayMonthStr (days.getLastD d0)) ::
       (String.mk (List.replicate 16 ' ') ++
         (" " ++ String.intercalate " " (days.map (fun d => dayLetter d)))) ::
       habits.map (fun h =>
         take15pad h.title ++ " " ++
           String.join (days.map (fun d =>
             if statusGet statuses (h.id, d) == 1 then "🟩" else "🟥"))))

/-- Outcome of the habit-title message handler. -/
inductive TitleOutcome where
  | rejected
  | added (habit_id : Nat)
deriving Repr, DecidableEq

/-- Function `bot.handle_habit_title`, state effect only: resolve the user via
`upsert_user`, take `title = (message.text or "").strip()`, reject titles
with `len(title) < 2` ("Habit name is too short") without touching habit
storage, otherwise call `add_habit`. -/
def handle_habit_title (db : DB) (tg_user_id : Nat) (tg_username : Option String)
    (text : Option String) : DB × TitleOutcome :=
  let r := upsert_user db tg_user_id tg_username
  let title := strip (text.getD "")
  if title.length < 2 then
    (r.1, TitleOutcome.rejected)
  else
    let a := add_habit r.1 r.2 title
    (a.1, TitleOutcome.added a.2)

/-- Database states reachable from `init_db` through the write operations of
the module (reads change nothing). -/
inductive Reachable : DB → Prop where
  | init : Reachable initDB
  | step_upsert_user (db : DB) (t : Nat) (n : Option String) :
      Reachable db → Reachable (upsert_user db t n).1
  | step_add_habit (db : DB) (u : Nat) (title : String) :
      Reachable db → Reachable (add_habit db u title).1
  | step_mark_done (db : DB) (h d : Nat) :
      Reachable db → Reachable (mark_done db h d).1
  | step_mark_done_for_user (db : DB) (u h d : Nat) :
      Reachable db → Reachable (mark_done_for_user db u h d).1
  | step_toggle_done_for_user (db : DB) (u h d : Nat) :
      Reachable db → Reachable (toggle_done_for_user db u h d).1
  | step_deactivate_habit_for_user (db : DB) (u h : Nat) :
      Reachable db → Reachable (deactivate_habit_for_user db u h).1

/-- At most one `habit_logs` row per `(habit_id, log_date)` pair — the
`UNIQUE(habit_id, log_date)` constraint of the schema. -/
def LogsUnique (db : DB) : Prop :=
  db.logs.Pairwise (fun a b => ¬(a.habit_id = b.habit_id ∧ a.log_date = b.log_date))

/-! ### Helper lemmas -/

theorem foldl_append_singleton {α β : Type} (f : α → β) :
    ∀ (l : List α) (init : List β),
      l.foldl (fun acc x => acc ++ [f x]) init = init ++ l.map f := by
  intro l
  induction l with
  | nil => intro init; simp
  | cons x xs ih => intro init; simp [List.foldl_cons, ih]

theorem upsertLogDone_mem (logs : List LogRow) (habit_id d : Nat) :
    ∃ l ∈ upsertLogDone logs habit_id d,
      l.habit_id = habit_id ∧ l.log_date = d ∧ l.done = 1 := by
  unfold upsertLogDone
  by_cases h : logs.any (fun l => l.habit_id == habit_id && l.log_date == d) = true
  · simp only [h, if_pos]
    obtain ⟨x, hx, hpx⟩ := List.any_eq_true.mp h
    simp only [Bool.and_eq_true, beq_iff_eq] at hpx
    refine ⟨{ x with done := 1 }, ?_, by simp [hpx.1], by simp [hpx.2], rfl⟩
    refine List.mem_map.mpr ⟨x, hx, ?_⟩
    simp [hpx.1, hpx.2]
  · simp only [h, if_neg, Bool.false_eq_true, not_false_iff]
    exact ⟨⟨habit_id, d, 1⟩, List.mem_append_right _ (List.mem_singleton.mpr rfl), rfl, rfl, rfl⟩

theorem upsertLogDone_any (logs : List LogRow) (hid d : Nat) :
    (upsertLogDone logs hid d).any (fun l => l.habit_id == hid && l.log_date == d) = true := by
  unfold upsertLogDone
  by_cases h : logs.any (fun l => l.habit_id == hid && l.log_date == d) = true
  · simp only [h, if_pos]
    rw [List.any_map]
    have hc : ((fun l : LogRow => l.habit_id == hid && l.log_date == d) ∘
        (fun l => if l.habit_id == hid && l.log_date == d then { l with done := 1 } else l)) =
        (fun l : LogRow => l.habit_id == hid && l.log_date == d) := by
      funext l
      by_cases hl : (l.habit_id == hid && l.log_date == d) = true <;>
        simp [Function.comp, hl]
    rw [hc, h]
  · simp only [h, if_neg, Bool.false_eq_true, not_false_iff]
    simp

theorem upsertLogDone_key_done (logs : List LogRow) (hid d : Nat) :
    ∀ l ∈ upsertLogDone logs hid d,
      (l.habit_id == hid && l.log_date == d) = true → l.done = 1 := by
  unfold upsertLogDone
  by_cases h : logs.any (fun l => l.habit_id == hid && l.log_date == d) = true
  · simp only [h, if_pos]
    intro l hl hkey
    obtain ⟨x, _, rfl⟩ := List.mem_map.mp hl
    by_cases hxk : (x.habit_id == hid && x.log_date == d) = true
    · simp [hxk]
    · rw [if_neg hxk] at hkey
      exact absurd hkey hxk
  · simp only [h, if_neg, Bool.false_eq_true, not_false_iff]
    intro l hl hkey
    rcases List.mem_append.mp hl with h1 | h2
    · have hall := List.any_eq_false.mp (Bool.eq_false_iff.mpr h)
      exact absurd hkey (by simpa using hall l h1)
    · rw [List.mem_singleton.mp h2]

theorem upsertLogDone_idem (logs : List LogRow) (hid d : Nat) :
    upsertLogDone (upsertLogDone logs hid d) hid d = upsertLogDone logs hid d := by
  conv_lhs => rw [upsertLogDone]
  rw [if_pos (upsertLogDone_any logs hid d)]
  have : ∀ l ∈ upsertLogDone logs hid d,
      (if l.habit_id == hid && l.log_date == d then { l with done := 1 } else l) = id l := by
    intro l hl
    by_cases hk : (l.habit_id == hid && l.log_date == d) = true
    · have hdone := upsertLogDone_key_done logs hid d l hl hk
      simp only [hk, if_pos, id]
      cases l
      simp_all
    · simp [hk]
  rw [List.map_congr_left this, List.map_id]

theorem dropWhile_head_false {α : Type} (p : α → Bool) :
    ∀ (l : List α) (a : α) (t : List α), l.dropWhile p = a :: t → p a = false := by
  intro l
  induction l with
  | nil =>
    intro a t h
    simp at h
  | cons x xs ih =>
    intro a t h
    by_cases hx : p x = true
    · rw [List.dropWhile_cons_of_pos hx] at h
      exact ih a t h
    · rw [List.dropWhile_cons_of_neg hx] at h
      injection h with h1 h2
      rw [← h1]
      simpa using hx

theorem strip_data_idem (d : List Char) :
    ((((((d.dropWhile Char.isWhitespace).reverse.dropWhile
          Char.isWhitespace).reverse).dropWhile Char.isWhitespace).reverse.dropWhile
            Char.isWhitespace).reverse) =
      ((d.dropWhile Char.isWhitespace).reverse.dropWhile Char.isWhitespace).reverse := by
  show List.rdropWhile Char.isWhitespace
      ((List.rdropWhile Char.isWhitespace (d.dropWhile Char.isWhitespace)).dropWhile
        Char.isWhitespace) =
    List.rdropWhile Char.isWhitespace (d.dropWhile Char.isWhitespace)
  have h1 : (List.rdropWhile Char.isWhitespace (d.dropWhile Char.isWhitespace)).dropWhile
      Char.isWhitespace =
      List.rdropWhile Char.isWhitespace (d.dropWhile Char.isWhitespace) := by
    cases hx : List.rdropWhile Char.isWhitespace (d.dropWhile Char.isWhitespace) with
    | nil => rfl
    | cons c cs =>
      obtain ⟨t, ht⟩ := List.rdropWhile_prefix Char.isWhitespace (d.dropWhile Char.isWhitespace)
      rw [hx] at ht
      have hpc : Char.isWhitespace c = false :=
        dropWhile_head_false Char.isWhitespace d c (cs ++ t)
          (by rw [← ht, List.cons_append])
      rw [List.dropWhile_cons_of_neg (by simp [hpc])]
  rw [h1, List.rdropWhile_idempotent]

theorem strip_idem (s : String) : strip (strip s) = strip s :=
  congrArg String.mk (strip_data_idem s.data)

theorem find?_append_of_none {α : Type} (p : α → Bool) (l₁ l₂ : List α)
    (h : l₁.find? p = none) : (l₁ ++ l₂).find? p = l₂.find? p := by
  induction l₁ with
  | nil => rfl
  | cons x xs ih =>
    rw [List.find?_cons] at h
    rcases hx : p x with _ | _
    · rw [hx] at h
      rw [List.cons_append, List.find?_cons, hx]
      exact ih h
    · rw [hx] at h
      exact absurd h (by simp)

theorem findUser_map_update (t : Nat) (n : Option String) (l : List UserRow) :
    (l.map (fun v => if v.tg_user_id == t then { v with tg_username := n } else v)).find?
        (fun u => u.tg_user_id == t) =
      (l.find? (fun u => u.tg_user_id == t)).map (fun u => { u with tg_username := n }) := by
  induction l with
  | nil => rfl
  | cons x xs ih =>
    rw [List.map_cons, List.find?_cons, List.find?_cons]
    by_cases hx : (x.tg_user_id == t) = true
    · rw [if_pos hx]
      have hup : (({ x with tg_username := n } : UserRow).tg_user_id == t) = true := hx
      rw [hup]
      rfl
    · have hx' : (x.tg_user_id == t) = false := by simpa using hx
      rw [if_neg hx, hx']
      exact ih

theorem upsert_user_of_found (db : DB) (t : Nat) (n : Option String) (u : UserRow)
    (hf : findUser db t = some u) : (upsert_user db t n).2 = u.id := by
  unfold upsert_user
  unfold findUser at hf
  rw [hf]

theorem upsert_user_find (db : DB) (t : Nat) (n : Option String) :
    findUser (upsert_user db t n).1 t = some ⟨(upsert_user db t n).2, t, n⟩ := by
  unfold findUser upsert_user
  rcases hf : db.users.find? (fun u => u.tg_user_id == t) with _ | u
  · rw [hf]
    rw [find?_append_of_none _ _ _ hf, List.find?_cons, show ((⟨db.nextUserId, t, n⟩ :
        UserRow).tg_user_id == t) = true by simp]
  · rw [hf]
    have hu : u.tg_user_id = t := by simpa using List.find?_some hf
    rw [findUser_map_update t n db.users, hf]
    simp [hu]

theorem upsert_user_frame (db : DB) (t : Nat) (n : Option String) :
    (upsert_user db t n).1.habits = db.habits ∧
    (upsert_user db t n).1.logs = db.logs ∧
    (upsert_user db t n).1.nextHabitId = db.nextHabitId := by
  unfold upsert_user
  rcases hf : db.users.find? (fun u => u.tg_user_id == t) with _ | u <;>
    rw [hf] <;> exact ⟨rfl, rfl, rfl⟩

theorem upsertLogDone_pairwise (logs : List LogRow) (hid d : Nat)
    (h : logs.Pairwise (fun a b => ¬(a.habit_id = b.habit_id ∧ a.log_date = b.log_date))) :
    (upsertLogDone logs hid d).Pairwise
      (fun a b => ¬(a.habit_id = b.habit_id ∧ a.log_date = b.log_date)) := by
  unfold upsertLogDone
  by_cases hany : logs.any (fun l => l.habit_id == hid && l.log_date == d) = true
  · rw [if_pos hany]
    have hkey : ∀ x : LogRow,
        ((if x.habit_id == hid && x.log_date == d then { x with done := 1 } else x) :
          LogRow).habit_id = x.habit_id ∧
        ((if x.habit_id == hid && x.log_date == d then { x with done := 1 } else x) :
          LogRow).log_date = x.log_date := by
      intro x
      by_cases hx : (x.habit_id == hid && x.log_date == d) = true <;> simp [hx]
    refine List.Pairwise.map _ (fun a b hab => ?_) h
    rw [(hkey a).1, (hkey a).2, (hkey b).1, (hkey b).2]
    exact hab
  · rw [if_neg hany]
    rw [List.pairwise_append]
    refine ⟨h, List.pairwise_singleton _ _, fun a ha b hb => ?_⟩
    rw [List.mem_singleton.mp hb]
    have hall := List.any_eq_false.mp (Bool.eq_false_iff.mpr hany) a ha
    simp only [Bool.and_eq_true, beq_iff_eq, not_and] at hall
    exact fun hc => hall hc.1 hc.2

/-- Concrete state used by witnesses: one user (internal id 1) with one
active habit (id 1), empty log. -/
def dbW : DB := ⟨[⟨1, 100, some "anton"⟩], [⟨1, 1, "Water 2L", true⟩], [], 2, 2⟩

/-- Concrete state used by witnesses: two users; habit 1 belongs to user 1,
habit 2 to user 2, both active, empty log. -/
def dbW2 : DB :=
  ⟨[⟨1, 100, some "anton"⟩, ⟨2, 200, none⟩],
   [⟨1, 1, "Water 2L", true⟩, ⟨2, 2, "Run", true⟩], [], 3, 3⟩

/-! ### Claims -/

/-- C5: for every reference date (ordinal ≥ 1), `week_dates` returns exactly
the 7 consecutive calendar dates starting on the Monday of the week
containing the reference date: the result is `[m, m+1, ..., m+6]` with
`weekday m = 0` and `m ≤ today ≤ m + 6` (so a Sunday reference yields the
Monday 6 days prior through that Sunday).  `week_dates` is a pure function
of the reference date, so determinism is inherent. -/
theorem week_dates_monday_span (t : Nat) (ht : 1 ≤ t) :
    week_dates t = [t - weekday t, t - weekday t + 1, t - weekday t + 2,
      t - weekday t + 3, t - weekday t + 4, t - weekday t + 5, t - weekday t + 6] ∧
    (week_dates t).length = 7 ∧
    weekday (t - weekday t) = 0 ∧
    t - weekday t ≤ t ∧ t ≤ t - weekday t + 6 := by
  refine ⟨rfl, rfl, ?_, ?_, ?_⟩ <;> (unfold weekday; omega)

/-- C5 witness: a Sunday reference date (ordinal 738892 = 2024-01-07) yields
the Monday 6 days prior (2024-01-01) through that Sunday. -/
theorem week_dates_monday_span_witness :
    week_dates 738892 = [738886, 738887, 738888, 738889, 738890, 738891, 738892] ∧
    weekday 738892 = 6 ∧ weekday 738886 = 0 :=
  ⟨((week_dates_monday_span 738892 (by decide)).1).trans (by decide),
   by decide, by decide⟩

/-- C8: `build_week_table` renders exactly the grid the spec describes — the
header line with the week's date span, the day-abbreviation sub-header, then
one row per habit in listing order with one glyph per day in date-range
order — and, being a pure function equal to `renderGridSpec` on every input,
two runs on the same habits, statuses and date range are byte-identical. -/
theorem build_week_table_renders_grid (habits : List HabitItem)
    (statuses : List ((Nat × Nat) × Nat)) (days : List Nat) :
    build_week_table habits statuses days = renderGridSpec habits statuses days := by
  cases days with
  | nil => rfl
  | cons d0 rest =>
    unfold build_week_table renderGridSpec
    simp only [foldl_append_singleton]
    rfl

/-- C10: the unscoped primitive `mark_done` performs no existence, ownership
or activity check: for every database state (including states with no habit
row for the given id at all), every habit id and every date, it returns true
and leaves a `habit_logs` row for the pair with `done = 1`, touching neither
the habits nor the users table. -/
theorem mark_done_unscoped (db : DB) (habit_id d : Nat) :
    (mark_done db habit_id d).2 = true ∧
    (∃ l ∈ (mark_done db habit_id d).1.logs,
        l.habit_id = habit_id ∧ l.log_date = d ∧ l.done = 1) ∧
    (mark_done db habit_id d).1.habits = db.habits ∧
    (mark_done db habit_id d).1.users = db.users :=
  ⟨rfl, upsertLogDone_mem db.logs habit_id d, rfl, rfl⟩

/-- C2: `mark_done_for_user` returns true exactly when the habit exists, is
active and belongs to the user (whether or not a log row already existed),
returns false otherwise, and calling it again after a first success returns
true again and leaves the entire database state — in particular the
`habit_logs` table — unchanged. -/
theorem mark_done_for_user_spec (db : DB) (uid hid d : Nat) :
    ((mark_done_for_user db uid hid d).2 = true ↔
      ∃ h ∈ db.habits, h.id = hid ∧ h.user_id = uid ∧ h.is_active = true) ∧
    ((mark_done_for_user db uid hid d).2 = true →
      mark_done_for_user (mark_done_for_user db uid hid d).1 uid hid d =
        ((mark_done_for_user db uid hid d).1, true)) := by
  by_cases h : db.habits.any (fun x => x.id == hid && x.user_id == uid && x.is_active) = true
  · have hT : ((mark_done_for_user db uid hid d).1.habits.any
        (fun x => x.id == hid && x.user_id == uid && x.is_active)) = true := by
      rw [mark_done_for_user, if_pos h]
      exact h
    have hL : (mark_done_for_user db uid hid d).1.logs = upsertLogDone db.logs hid d := by
      rw [mark_done_for_user, if_pos h]
    constructor
    · rw [mark_done_for_user, if_pos h]
      refine ⟨fun _ => ?_, fun _ => rfl⟩
      obtain ⟨x, hx, hpx⟩ := List.any_eq_true.mp h
      simp only [Bool.and_eq_true, beq_iff_eq] at hpx
      exact ⟨x, hx, hpx.1.1, hpx.1.2, hpx.2⟩
    · intro _
      rw [mark_done_for_user, if_pos hT, hL, upsertLogDone_idem, ← hL]
  · constructor
    · rw [mark_done_for_user, if_neg h]
      refine ⟨fun hc => absurd hc (by simp), fun hc => ?_⟩
      obtain ⟨x, hx, h1, h2, h3⟩ := hc
      exact absurd (List.any_eq_true.mpr ⟨x, hx, by simp [h1, h2, h3]⟩) h
    · intro hc
      rw [mark_done_for_user, if_neg h] at hc
      exact absurd hc (by simp)

/-- C2 witness: on a database with one active habit (id 1) of user 1, the
first mark succeeds and the second is a no-op that still returns true. -/
theorem mark_done_for_user_spec_witness :
    (mark_done_for_user dbW 1 1 738886).2 = true ∧
    mark_done_for_user (mark_done_for_user dbW 1 1 738886).1 1 1 738886 =
      ((mark_done_for_user dbW 1 1 738886).1, true) :=
  ⟨(mark_done_for_user_spec dbW 1 1 738886).1.mpr
      ⟨⟨1, 1, "Water 2L", true⟩, by decide, rfl, rfl, rfl⟩,
   (mark_done_for_user_spec dbW 1 1 738886).2 (by decide)⟩

/-- C1: on a state where the habit exists, is active and belongs to the user
and where the (habit, date) pair has no log row (Undone), calling
`toggle_done_for_user` twice in immediate succession with the same pair and
no other interleaving yields Marked then Removed and returns the database to
exactly its initial state. -/
theorem toggle_done_involution (db : DB) (uid hid d : Nat)
    (hhab : db.habits.any (fun h => h.id == hid && h.user_id == uid && h.is_active) = true)
    (hundone : ∀ l ∈ db.logs, ¬(l.habit_id = hid ∧ l.log_date = d)) :
    (toggle_done_for_user db uid hid d).2 = some ToggleResult.marked ∧
    (toggle_done_for_user (toggle_done_for_user db uid hid d).1 uid hid d).2 =
      some ToggleResult.removed ∧
    (toggle_done_for_user (toggle_done_for_user db uid hid d).1 uid hid d).1 = db := by
  have hlogF : ∀ p : LogRow → Bool,
      (∀ l, p l = true → l.habit_id = hid ∧ l.log_date = d) → db.logs.any p = false := by
    intro p hp
    rw [List.any_eq_false]
    intro l hl hc
    exact hundone l hl (hp l hc)
  have hdoneF : db.logs.any
      (fun l => l.habit_id == hid && l.log_date == d && l.done == 1) = false := by
    apply hlogF
    intro l hc
    simp only [Bool.and_eq_true, beq_iff_eq] at hc
    exact ⟨hc.1.1, hc.1.2⟩
  have hkeyF : db.logs.any (fun l => l.habit_id == hid && l.log_date == d) = false := by
    apply hlogF
    intro l hc
    simp only [Bool.and_eq_true, beq_iff_eq] at hc
    exact hc
  have h1 : toggle_done_for_user db uid hid d =
      ({ db with logs := db.logs ++ [⟨hid, d, 1⟩] }, some ToggleResult.marked) := by
    rw [toggle_done_for_user, if_pos hhab, if_neg (by simp [hdoneF]),
      upsertLogDone, if_neg (by simp [hkeyF])]
  have hmem : ((db.logs ++ [(⟨hid, d, 1⟩ : LogRow)]).any
      (fun l => l.habit_id == hid && l.log_date == d && l.done == 1)) = true := by
    refine List.any_eq_true.mpr ⟨⟨hid, d, 1⟩, List.mem_append_right _ ?_, by simp⟩
    exact List.mem_singleton.mpr rfl
  have hfilter : (db.logs ++ [(⟨hid, d, 1⟩ : LogRow)]).filter
      (fun l => !(l.habit_id == hid && l.log_date == d)) = db.logs := by
    rw [List.filter_append]
    have hA : db.logs.filter (fun l => !(l.habit_id == hid && l.log_date == d)) = db.logs := by
      apply List.filter_eq_self.mpr
      intro l hl
      have hn := hundone l hl
      by_cases hh : l.habit_id = hid
      · have hd : l.log_date ≠ d := fun hdd => hn ⟨hh, hdd⟩
        simp [hh, hd]
      · simp [hh]
    rw [hA]
    simp
  have h2 : toggle_done_for_user { db with logs := db.logs ++ [⟨hid, d, 1⟩] } uid hid d =
      (db, some ToggleResult.removed) := by
    rw [toggle_done_for_user]
    rw [if_pos (show (({ db with logs := db.logs ++ [⟨hid, d, 1⟩] } : DB).habits.any
        (fun h => h.id == hid && h.user_id == uid && h.is_active)) = true from hhab)]
    rw [if_pos (show (({ db with logs := db.logs ++ [⟨hid, d, 1⟩] } : DB).logs.any
        (fun l => l.habit_id == hid && l.log_date == d && l.done == 1)) = true from hmem)]
    have : ({ db with logs := db.logs ++ [⟨hid, d, 1⟩] } : DB).logs.filter
        (fun l => !(l.habit_id == hid && l.log_date == d)) = db.logs := hfilter
    rw [this]
  exact ⟨by rw [h1], by simp only [h1, h2], by simp only [h1, h2]⟩

/-- C1 witness: on `dbW` (one active habit, empty log), toggling habit 1 on
2024-01-01 twice marks then removes and restores the initial state. -/
theorem toggle_done_involution_witness :
    (toggle_done_for_user dbW 1 1 738886).2 = some ToggleResult.marked ∧
    (toggle_done_for_user (toggle_done_for_user dbW 1 1 738886).1 1 1 738886).2 =
      some ToggleResult.removed ∧
    (toggle_done_for_user (toggle_done_for_user dbW 1 1 738886).1 1 1 738886).1 = dbW :=
  toggle_done_involution dbW 1 1 738886 (by decide) (by simp [dbW])

/-- C4: `deactivate_habit_for_user` returns true exactly when the habit
exists, belongs to the acting user and is currently active; whenever it
returns false it changes no state (so a non-owner's call leaves every
user's active-habit listing, in particular the owner's, untouched), and
after a success a second call on the same habit returns false and changes
nothing further. -/
theorem deactivate_habit_spec (db : DB) (uid hid : Nat) :
    ((deactivate_habit_for_user db uid hid).2 = true ↔
      ∃ h ∈ db.habits, h.id = hid ∧ h.user_id = uid ∧ h.is_active = true) ∧
    ((deactivate_habit_for_user db uid hid).2 = false →
      (deactivate_habit_for_user db uid hid).1 = db) ∧
    ((deactivate_habit_for_user db uid hid).2 = false →
      ∀ u, list_habits (deactivate_habit_for_user db uid hid).1 u = list_habits db u) ∧
    ((deactivate_habit_for_user db uid hid).2 = true →
      (deactivate_habit_for_user (deactivate_habit_for_user db uid hid).1 uid hid).2 = false ∧
      (deactivate_habit_for_user (deactivate_habit_for_user db uid hid).1 uid hid).1 =
        (deactivate_habit_for_user db uid hid).1) := by
  by_cases h : db.habits.any (fun x => x.id == hid && x.user_id == uid && x.is_active) = true
  · refine ⟨?_, ?_, ?_, ?_⟩
    · rw [deactivate_habit_for_user, if_pos h]
      refine ⟨fun _ => ?_, fun _ => rfl⟩
      obtain ⟨x, hx, hpx⟩ := List.any_eq_true.mp h
      simp only [Bool.and_eq_true, beq_iff_eq] at hpx
      exact ⟨x, hx, hpx.1.1, hpx.1.2, hpx.2⟩
    · intro hc
      rw [deactivate_habit_for_user, if_pos h] at hc
      exact absurd hc (by simp)
    · intro hc
      rw [deactivate_habit_for_user, if_pos h] at hc
      exact absurd hc (by simp)
    · intro _
      have hmapF : ∀ hs : List HabitRow,
          ((hs.map (fun x => if x.id == hid && x.user_id == uid && x.is_active then
              { x with is_active := false } else x)).any
            (fun x => x.id == hid && x.user_id == uid && x.is_active)) = false := by
        intro hs
        rw [List.any_map, List.any_eq_false]
        intro x _
        by_cases hx : (x.id == hid && x.user_id == uid && x.is_active) = true
        · simp only [Bool.and_eq_true, beq_iff_eq] at hx
          simp [Function.comp, hx.1.1, hx.1.2, hx.2]
        · simp only [Function.comp]
          rw [if_neg hx]
          exact hx
      have hF : ((deactivate_habit_for_user db uid hid).1.habits.any
          (fun x => x.id == hid && x.user_id == uid && x.is_active)) = false := by
        rw [deactivate_habit_for_user, if_pos h]
        exact hmapF db.habits
      constructor
      · rw [deactivate_habit_for_user, if_neg (by simp [hF])]
      · rw [deactivate_habit_for_user, if_neg (by simp [hF])]
  · refine ⟨?_, ?_, ?_, ?_⟩
    · rw [deactivate_habit_for_user, if_neg h]
      refine ⟨fun hc => absurd hc (by simp), fun hc => ?_⟩
      obtain ⟨x, hx, h1, h2, h3⟩ := hc
      exact absurd (List.any_eq_true.mpr ⟨x, hx, by simp [h1, h2, h3]⟩) h
    · intro _
      rw [deactivate_habit_for_user, if_neg h]
    · intro _ u
      rw [deactivate_habit_for_user, if_neg h]
    · intro hc
      rw [deactivate_habit_for_user, if_neg h] at hc
      exact absurd hc (by simp)

/-- C4 witness: on `dbW2` habit 2 belongs to user 2; user 1's deactivation
attempt returns false and leaves the state (and user 2's listing) unchanged,
while user 2's own call succeeds and a repeat of it returns false. -/
theorem deactivate_habit_spec_witness :
    (deactivate_habit_for_user dbW2 1 2).2 = false ∧
    (deactivate_habit_for_user dbW2 1 2).1 = dbW2 ∧
    list_habits (deactivate_habit_for_user dbW2 1 2).1 2 = list_habits dbW2 2 ∧
    (deactivate_habit_for_user (deactivate_habit_for_user dbW2 2 2).1 2 2).2 = false := by
  have h := deactivate_habit_spec dbW2 1 2
  have h2 := deactivate_habit_spec dbW2 2 2
  refine ⟨by decide, h.2.1 (by decide), h.2.2.1 (by decide) 2,
    (h2.2.2.2 ((h2.1).mpr ⟨⟨2, 2, "Run", true⟩, by decide, rfl, rfl, rfl⟩)).1⟩

/-- C7: identity resolution is a stable upsert.  The first call for an
external id creates a user row carrying the fresh internal id
`db.nextUserId` and returns that id; any immediately following call with the
same external id returns the very same internal id and overwrites the stored
display name with the latest value. -/
theorem upsert_user_stable (db : DB) (t : Nat) (n1 n2 : Option String) :
    (findUser db t = none →
      (upsert_user db t n1).2 = db.nextUserId ∧
      (upsert_user db t n1).1.users = db.users ++ [⟨db.nextUserId, t, n1⟩]) ∧
    ((upsert_user (upsert_user db t n1).1 t n2).2 = (upsert_user db t n1).2 ∧
     findUser (upsert_user (upsert_user db t n1).1 t n2).1 t =
       some ⟨(upsert_user db t n1).2, t, n2⟩) := by
  constructor
  · intro hf
    unfold findUser at hf
    unfold upsert_user
    rw [hf]
    exact ⟨rfl, rfl⟩
  · refine ⟨?_, ?_⟩
    · exact upsert_user_of_found _ t n2 _ (upsert_user_find db t n1)
    · rw [upsert_user_find (upsert_user db t n1).1 t n2,
        upsert_user_of_found _ t n2 _ (upsert_user_find db t n1)]

/-- C7 witness: from the empty database, the first call for external id 100
returns the fresh internal id 1, and the second call returns the same id
while overwriting the stored name. -/
theorem upsert_user_stable_witness :
    (upsert_user initDB 100 (some "anton")).2 = 1 ∧
    (upsert_user (upsert_user initDB 100 (some "anton")).1 100 (some "tyler")).2 = 1 ∧
    findUser (upsert_user (upsert_user initDB 100 (some "anton")).1 100 (some "tyler")).1 100 =
      some ⟨1, 100, some "tyler"⟩ := by
  have h := upsert_user_stable initDB 100 (some "anton") (some "tyler")
  have h1 : (upsert_user initDB 100 (some "anton")).2 = 1 := (h.1 (by decide)).1
  exact ⟨h1, h.2.1.trans h1, h.2.2.trans (by rw [h1])⟩

/-- C9: title validation is caller-level only.  `add_habit` itself inserts a
new active habit row storing the trimmed title and returns the fresh id for
every title, with no length check; the handler `handle_habit_title` trims
the incoming text and, when fewer than 2 characters remain, answers
"too short" without invoking `add_habit`, leaving the habit and log tables
untouched, while a title of length at least 2 is stored. -/
theorem title_validation_caller_level (db : DB) (uid : Nat) (t : String)
    (tgid : Nat) (un : Option String) (text : Option String) :
    ((add_habit db uid t).1.habits = db.habits ++ [⟨db.nextHabitId, uid, strip t, true⟩] ∧
     (add_habit db uid t).2 = db.nextHabitId) ∧
    ((strip (text.getD "")).length < 2 →
      (handle_habit_title db tgid un text).2 = TitleOutcome.rejected ∧
      (handle_habit_title db tgid un text).1.habits = db.habits ∧
      (handle_habit_title db tgid un text).1.logs = db.logs) ∧
    (2 ≤ (strip (text.getD "")).length →
      (handle_habit_title db tgid un text).2 = TitleOutcome.added db.nextHabitId ∧
      (handle_habit_title db tgid un text).1.habits =
        db.habits ++ [⟨db.nextHabitId, (upsert_user db tgid un).2,
          strip (text.getD ""), true⟩]) := by
  have hframe := upsert_user_frame db tgid un
  refine ⟨⟨rfl, rfl⟩, ?_, ?_⟩
  · intro hlt
    unfold handle_habit_title
    rw [if_pos hlt]
    exact ⟨rfl, hframe.1, hframe.2.1⟩
  · intro hge
    unfold handle_habit_title
    rw [if_neg (by omega)]
    refine ⟨?_, ?_⟩
    · show TitleOutcome.added (upsert_user db tgid un).1.nextHabitId = _
      rw [hframe.2.2]
    · show (upsert_user db tgid un).1.habits ++ _ = _
      rw [hframe.1, hframe.2.2, strip_idem]

/-- C9 witness: the text " a " trims to one character and is rejected
without touching habit storage; "Run 5k" is stored; `add_habit` itself even
accepts the one-character title "x" (no repository-level check). -/
theorem title_validation_caller_level_witness :
    (handle_habit_title dbW 100 (some "anton") (some " a ")).2 = TitleOutcome.rejected ∧
    (handle_habit_title dbW 100 (some "anton") (some " a ")).1.habits = dbW.habits ∧
    (handle_habit_title dbW 100 (some "anton") (some "Run 5k")).2 = TitleOutcome.added 2 ∧
    (add_habit dbW 1 "x").2 = 2 := by
  have h1 := title_validation_caller_level dbW 1 "x" 100 (some "anton") (some " a ")
  have h2 := title_validation_caller_level dbW 1 "x" 100 (some "anton") (some "Run 5k")
  exact ⟨(h1.2.1 (by decide)).1, (h1.2.1 (by decide)).2.1, (h2.2.2 (by decide)).1, h1.1.2⟩

/-- C6: adding a habit and then listing the user's active habits yields the
(trimmed) title exactly once, for every valid title of trimmed length at
least 2 and every state in which the user does not already have an active
habit with that title. -/
theorem add_then_list_contains_once (db : DB) (uid : Nat) (t : String)
    (hlen : 2 ≤ (strip t).length)
    (hfresh : ∀ h ∈ db.habits, h.user_id = uid → h.is_active = true → h.title ≠ strip t) :
    ((list_habits (add_habit db uid t).1 uid).map (fun h => h.title)).count (strip t) = 1 := by
  unfold list_habits add_habit
  rw [List.map_map]
  have hnew : ((⟨db.nextHabitId, uid, strip t, true⟩ : HabitRow).user_id == uid &&
      (⟨db.nextHabitId, uid, strip t, true⟩ : HabitRow).is_active) = true := by simp
  have hfil : (db.habits ++ [(⟨db.nextHabitId, uid, strip t, true⟩ : HabitRow)]).filter
      (fun h => h.user_id == uid && h.is_active) =
      db.habits.filter (fun h => h.user_id == uid && h.is_active) ++
        [⟨db.nextHabitId, uid, strip t, true⟩] := by
    rw [List.filter_append]
    congr 1
    simp [hnew]
  have hperm := (List.perm_insertionSort (fun a b : HabitRow => a.id ≤ b.id)
    ((db.habits ++ [(⟨db.nextHabitId, uid, strip t, true⟩ : HabitRow)]).filter
      (fun h => h.user_id == uid && h.is_active)))
  have hcount := (hperm.map ((fun h : HabitItem => h.title) ∘ fun h => (⟨h.id, h.title⟩ :
    HabitItem))).count_eq (strip t)
  rw [hcount, hfil, List.map_append, List.count_append]
  have hzero : ((db.habits.filter (fun h => h.user_id == uid && h.is_active)).map
      ((fun h : HabitItem => h.title) ∘ fun h => (⟨h.id, h.title⟩ : HabitItem))).count
        (strip t) = 0 := by
    rw [List.count_eq_zero]
    intro hc
    obtain ⟨x, hx, hxt⟩ := List.mem_map.mp hc
    have hxf := List.of_mem_filter hx
    simp only [Bool.and_eq_true, beq_iff_eq] at hxf
    exact hfresh x (List.mem_of_mem_filter hx) hxf.1 (by simpa using hxf.2) hxt
  rw [hzero]
  simp

/-- C6 witness: adding " Run 5k " to `dbW` (whose only habit is titled
"Water 2L") and listing user 1's habits shows the trimmed title once. -/
theorem add_then_list_contains_once_witness :
    ((list_habits (add_habit dbW 1 " Run 5k ").1 1).map (fun h => h.title)).count
      (strip " Run 5k ") = 1 :=
  add_then_list_contains_once dbW 1 " Run 5k " (by decide) (by decide)

/-- C3: every database state reachable from `init_db` through the module's
operations has at most one `habit_logs` row per `(habit_id, log_date)` pair;
each operation preserves the invariant, a duplicate insert for an existing
pair being resolved by the ON CONFLICT update rather than by a second row. -/
theorem reachable_logs_unique (db : DB) (h : Reachable db) : LogsUnique db := by
  induction h with
  | init => exact List.Pairwise.nil
  | step_upsert_user db t n _ ih =>
    show List.Pairwise _ _
    rw [(upsert_user_frame db t n).2.1]
    exact ih
  | step_add_habit db u title _ ih => exact ih
  | step_mark_done db hid d _ ih => exact upsertLogDone_pairwise db.logs hid d ih
  | step_mark_done_for_user db u hid d _ ih =>
    by_cases hc : db.habits.any (fun h => h.id == hid && h.user_id == u && h.is_active) = true
    · have hl : (mark_done_for_user db u hid d).1.logs = upsertLogDone db.logs hid d := by
        rw [mark_done_for_user, if_pos hc]
      show List.Pairwise _ _
      rw [hl]
      exact upsertLogDone_pairwise db.logs hid d ih
    · have hl : (mark_done_for_user db u hid d).1.logs = db.logs := by
        rw [mark_done_for_user, if_neg hc]
      show List.Pairwise _ _
      rw [hl]
      exact ih
  | step_toggle_done_for_user db u hid d _ ih =>
    by_cases hc : db.habits.any (fun h => h.id == hid && h.user_id == u && h.is_active) = true
    · by_cases hd : db.logs.any (fun l =>
          l.habit_id == hid && l.log_date == d && l.done == 1) = true
      · have hl : (toggle_done_for_user db u hid d).1.logs =
            db.logs.filter (fun l => !(l.habit_id == hid && l.log_date == d)) := by
          rw [toggle_done_for_user, if_pos hc, if_pos hd]
        show List.Pairwise _ _
        rw [hl]
        exact ih.filter _
      · have hl : (toggle_done_for_user db u hid d).1.logs = upsertLogDone db.logs hid d := by
          rw [toggle_done_for_user, if_pos hc, if_neg hd]
        show List.Pairwise _ _
        rw [hl]
        exact upsertLogDone_pairwise db.logs hid d ih
    · have hl : (toggle_done_for_user db u hid d).1.logs = db.logs := by
        rw [toggle_done_for_user, if_neg hc]
      show List.Pairwise _ _
      rw [hl]
      exact ih
  | step_deactivate_habit_for_user db u hid _ ih =>
    by_cases hc : db.habits.any (fun h => h.id == hid && h.user_id == u && h.is_active) = true
    · have hl : (deactivate_habit_for_user db u hid).1.logs = db.logs := by
        rw [deactivate_habit_for_user, if_pos hc]
      show List.Pairwise _ _
      rw [hl]
      exact ih
    · have hl : (deactivate_habit_for_user db u hid).1.logs = db.logs := by
        rw [deactivate_habit_for_user, if_neg hc]
      show List.Pairwise _ _
      rw [hl]
      exact ih

/-- C3 witness: a concrete reachable state — create a user and a habit, then
mark it done twice for the same date — satisfies the uniqueness invariant. -/
theorem reachable_logs_unique_witness :
    LogsUnique (mark_done (mark_done (add_habit (upsert_user initDB 100
      (some "anton")).1 1 "Water 2L").1 1 738886).1 1 738886).1 :=
  reachable_logs_unique _
    (Reachable.step_mark_done _ 1 738886
      (Reachable.step_mark_done _ 1 738886
        (Reachable.step_add_habit _ 1 "Water 2L"
          (Reachable.step_upsert_user _ 100 (some "anton") Reachable.init))))

end Tylerbot
